import Mathlib

/-!
Verification of `exercises/2_recurrent_neural_networks.ipynb` from the
code-breakfast-deep-learning repository.

The notebook is straight-line Python: it loads the IMDB dataset, builds the
dictionaries `word_to_index` / `index_to_word`, pads the token sequences to
a fixed length with `sequence.pad_sequences(., maxlen=80)`, and leaves the
model assembly and the fit call as exercises.  We embed

* Python dictionaries as association lists with Python's assignment
  semantics (`dinsert`: update in place when the key exists, append
  otherwise) and subscript lookup (`dget`);
* the notebook's dictionary constructions `word_to_index` and
  `index_to_word` verbatim from the source cell;
* the keras padding call, modelled from its documented default behaviour
  (the keras implementation is not part of this repository);
* the notebook's kernel state and the state updates its cells perform;
* the notebook's code cells as a syntactic statement list, for the claims
  about which constructs do and do not occur in the source.
-/

namespace ImdbNotebook

section PyDict

variable {α : Type} {β : Type} [DecidableEq α]

/-- Python dictionary assignment `d[k] = v`: if `k` is already a key, the
entry is updated in place (its position is kept); otherwise `(k, v)` is
appended at the end, as Python dicts preserve insertion order. -/
def dinsert (d : List (α × β)) (k : α) (v : β) : List (α × β) :=
  if k ∈ d.map Prod.fst then
    d.map (fun kv => if kv.1 = k then (k, v) else kv)
  else
    d ++ [(k, v)]

/-- Python dictionary subscript `d[k]`: the value of the entry with key `k`,
or `none` (a `KeyError`) when no such entry exists. -/
def dget (d : List (α × β)) (k : α) : Option β :=
  match d with
  | [] => none
  | kv :: rest => if kv.1 = k then some kv.2 else dget rest k

/-- A Python dict comprehension over a list of key/value pairs: the pairs
are inserted one after the other into a fresh dictionary, a later pair with
the same key overriding an earlier one. -/
def dictOfPairs (l : List (α × β)) : List (α × β) :=
  l.foldl (fun d kv => dinsert d kv.1 kv.2) []

theorem dinsert_of_not_mem {d : List (α × β)} {k : α} (v : β)
    (h : k ∉ d.map Prod.fst) : dinsert d k v = d ++ [(k, v)] := by
  simp [dinsert, h]

theorem dget_append_of_not_mem {l₁ : List (α × β)} (l₂ : List (α × β)) {k : α}
    (h : k ∉ l₁.map Prod.fst) : dget (l₁ ++ l₂) k = dget l₂ k := by
  induction l₁ with
  | nil => rfl
  | cons kv rest ih =>
    simp only [List.map_cons, List.mem_cons] at h
    push_neg at h
    have hk : kv.1 ≠ k := fun he => h.1 he.symm
    simp [dget, hk, ih h.2]

theorem dget_eq_some_of_mem {d : List (α × β)} {k : α} {v : β}
    (hnd : (d.map Prod.fst).Nodup) (hm : (k, v) ∈ d) : dget d k = some v := by
  induction d with
  | nil => simp at hm
  | cons kv rest ih =>
    simp only [List.map_cons, List.nodup_cons] at hnd
    rcases List.mem_cons.mp hm with h | h
    · simp [dget, ← h]
    · have hk : kv.1 ≠ k := by
        intro he
        exact hnd.1 (he ▸ List.mem_map_of_mem Prod.fst h)
      simp [dget, hk, ih hnd.2 h]

theorem mem_of_dget_eq_some {d : List (α × β)} {k : α} {v : β}
    (h : dget d k = some v) : (k, v) ∈ d := by
  induction d with
  | nil => simp [dget] at h
  | cons kv rest ih =>
    by_cases hk : kv.1 = k
    · simp only [dget, if_pos hk] at h
      cases h
      subst hk
      exact List.mem_cons_self _ _
    · simp only [dget, if_neg hk] at h
      exact List.mem_cons_of_mem _ (ih h)

theorem dget_isSome_iff_mem {d : List (α × β)} {k : α} :
    (dget d k).isSome ↔ k ∈ d.map Prod.fst := by
  induction d with
  | nil => simp [dget]
  | cons kv rest ih =>
    by_cases hk : kv.1 = k
    · simp [dget, hk]
    · have hk' : k ≠ kv.1 := fun he => hk he.symm
      simp [dget, hk, hk', ih]

theorem dget_dinsert_self (d : List (α × β)) (k : α) (v : β) :
    dget (dinsert d k v) k = some v := by
  unfold dinsert
  by_cases hmem : k ∈ d.map Prod.fst
  · simp only [if_pos hmem]
    induction d with
    | nil => simp at hmem
    | cons kv rest ih =>
      by_cases hk : kv.1 = k
      · simp [dget, hk]
      · have : k ∈ rest.map Prod.fst := by
          rcases List.mem_map.mp hmem with ⟨p, hp, he⟩
          rcases List.mem_cons.mp hp with h | h
          · exact absurd (h ▸ he) hk
          · exact he ▸ List.mem_map_of_mem Prod.fst h
        simp [dget, hk, ih this]
  · simp only [if_neg hmem]
    rw [dget_append_of_not_mem _ hmem]
    simp [dget]

theorem dget_map_update_of_ne {k k' : α} (v : β) (d : List (α × β))
    (h : k' ≠ k) :
    dget (d.map (fun kv => if kv.1 = k' then (k', v) else kv)) k = dget d k := by
  induction d with
  | nil => rfl
  | cons kv rest ih =>
    by_cases hk : kv.1 = k'
    · have hkvk : kv.1 ≠ k := by rw [hk]; exact h
      simp [dget, hk, h, hkvk, ih]
    · simp only [List.map_cons, if_neg hk, dget]
      by_cases hkvk : kv.1 = k
      · simp [hkvk]
      · simp [hkvk, ih]

theorem dget_append_single_of_ne {k k' : α} (v : β) (d : List (α × β))
    (h : k' ≠ k) : dget (d ++ [(k', v)]) k = dget d k := by
  induction d with
  | nil => simp [dget, h]
  | cons kv rest ih =>
    by_cases hk : kv.1 = k
    · simp [dget, hk]
    · simp [dget, hk, ih]

theorem dget_dinsert_of_ne (d : List (α × β)) {k k' : α} (v : β)
    (h : k' ≠ k) : dget (dinsert d k' v) k = dget d k := by
  unfold dinsert
  by_cases hmem : k' ∈ d.map Prod.fst
  · rw [if_pos hmem]
    exact dget_map_update_of_ne v d h
  · rw [if_neg hmem]
    exact dget_append_single_of_ne v d h

theorem mem_of_mem_dinsert {d : List (α × β)} {k : α} {v : β} {p : α × β}
    (h : p ∈ dinsert d k v) : p ∈ d ∨ p = (k, v) := by
  unfold dinsert at h
  by_cases hmem : k ∈ d.map Prod.fst
  · rw [if_pos hmem] at h
    rcases List.mem_map.mp h with ⟨q, hq, he⟩
    by_cases hk : q.1 = k
    · simp only [hk, if_pos rfl] at he
      exact Or.inr he.symm
    · simp only [if_neg hk] at he
      exact Or.inl (he ▸ hq)
  · rw [if_neg hmem] at h
    rcases List.mem_append.mp h with h | h
    · exact Or.inl h
    · exact Or.inr (List.mem_singleton.mp h)

theorem foldl_dinsert_eq_append (l : List (α × β)) :
    ∀ acc : List (α × β), (l.map Prod.fst).Nodup →
      (∀ k ∈ l.map Prod.fst, k ∉ acc.map Prod.fst) →
      l.foldl (fun d kv => dinsert d kv.1 kv.2) acc = acc ++ l := by
  induction l with
  | nil => intro acc _ _; simp
  | cons kv rest ih =>
    intro acc hnd hdisj
    simp only [List.map_cons, List.nodup_cons] at hnd
    have h1 : kv.1 ∉ acc.map Prod.fst :=
      hdisj kv.1 (by simp)
    simp only [List.foldl_cons]
    rw [dinsert_of_not_mem kv.2 h1]
    rw [ih (acc ++ [(kv.1, kv.2)]) hnd.2]
    · simp
    · intro k hk
      simp only [List.map_append, List.mem_append]
      push_neg
      constructor
      · exact hdisj k (List.mem_cons_of_mem _ hk)
      · simp only [List.map_cons, List.map_nil, List.mem_singleton]
        intro he
        exact hnd.1 (he ▸ hk)

theorem dictOfPairs_eq_self {l : List (α × β)}
    (hnd : (l.map Prod.fst).Nodup) : dictOfPairs l = l := by
  unfold dictOfPairs
  rw [foldl_dinsert_eq_append l [] hnd (by simp)]
  simp

theorem mem_of_mem_dictOfPairs {l : List (α × β)} {p : α × β}
    (h : p ∈ dictOfPairs l) : p ∈ l := by
  unfold dictOfPairs at h
  suffices haux : ∀ acc : List (α × β),
      p ∈ l.foldl (fun d kv => dinsert d kv.1 kv.2) acc → p ∈ acc ∨ p ∈ l by
    rcases haux [] h with h' | h'
    · simp at h'
    · exact h'
  clear h
  induction l with
  | nil => intro acc h; exact Or.inl h
  | cons kv rest ih =>
    intro acc h
    simp only [List.foldl_cons] at h
    rcases ih (dinsert acc kv.1 kv.2) h with h' | h'
    · rcases mem_of_mem_dinsert h' with h'' | h''
      · exact Or.inl h''
      · exact Or.inr (h'' ▸ List.mem_cons_self _ _)
    · exact Or.inr (List.mem_cons_of_mem _ h')

theorem mem_keys_dinsert {d : List (α × β)} {k a : α} {v : β} :
    a ∈ (dinsert d k v).map Prod.fst ↔ a ∈ d.map Prod.fst ∨ a = k := by
  unfold dinsert
  by_cases hmem : k ∈ d.map Prod.fst
  · rw [if_pos hmem]
    constructor
    · intro h
      rcases List.mem_map.mp h with ⟨q, hq, he⟩
      rcases List.mem_map.mp hq with ⟨r, hr, he'⟩
      by_cases hk : r.1 = k
      · right
        rw [← he, ← he']
        simp [hk]
      · left
        rw [← he, ← he']
        simp only [if_neg hk]
        exact List.mem_map_of_mem Prod.fst hr
    · intro h
      rcases h with h | h
      · rcases List.mem_map.mp h with ⟨r, hr, he⟩
        apply List.mem_map.mpr
        by_cases hk : r.1 = k
        · rcases List.mem_map.mp hmem with ⟨q, hq, hqe⟩
          by_cases hq1 : q.1 = k
          · exact ⟨(k, v), List.mem_map.mpr ⟨q, hq, by simp [hq1]⟩,
              by rw [← he, hk]⟩
          · exact ⟨q, List.mem_map.mpr ⟨q, hq, by simp [hq1]⟩,
              by rw [← he, hk, ← hqe]⟩
        · exact ⟨r, List.mem_map.mpr ⟨r, hr, by simp [hk]⟩, he⟩
      · subst h
        rcases List.mem_map.mp hmem with ⟨q, hq, hqe⟩
        apply List.mem_map.mpr
        by_cases hq1 : q.1 = a
        · exact ⟨(a, v), List.mem_map.mpr ⟨q, hq, by simp [hq1]⟩, rfl⟩
        · exact ⟨q, List.mem_map.mpr ⟨q, hq, by simp [hq1]⟩, hqe⟩
  · rw [if_neg hmem]
    simp

theorem mem_keys_foldl_dinsert (l : List (α × β)) :
    ∀ (acc : List (α × β)) (k : α),
      k ∈ (l.foldl (fun d kv => dinsert d kv.1 kv.2) acc).map Prod.fst ↔
        k ∈ acc.map Prod.fst ∨ k ∈ l.map Prod.fst := by
  induction l with
  | nil => intro acc k; simp
  | cons kv rest ih =>
    intro acc k
    simp only [List.foldl_cons, List.map_cons, List.mem_cons]
    rw [ih]
    rw [show k ∈ (dinsert acc kv.1 kv.2).map Prod.fst ↔
      k ∈ acc.map Prod.fst ∨ k = kv.1 from mem_keys_dinsert]
    tauto

theorem mem_keys_dictOfPairs {l : List (α × β)} {k : α} :
    k ∈ (dictOfPairs l).map Prod.fst ↔ k ∈ l.map Prod.fst := by
  unfold dictOfPairs
  rw [mem_keys_foldl_dinsert]
  simp

end PyDict

/-! ### Constants and dictionary constructions from the notebook -/

/-- `NUM_WORDS = 20000`: only the 20000 most frequent words are loaded. -/
def NUM_WORDS : Nat := 20000

/-- `INDEX_FROM = 3`: the first actual word id used by the dataset. -/
def INDEX_FROM : Nat := 3

/-- `MAXLEN = 80`: the fixed review length after padding/truncation. -/
def MAXLEN : Nat := 80

/-- The padding marker string `<PAD>` used in the notebook. -/
def padToken : String := "<PAD>"

/-- The start-of-sequence marker string `<START>` used in the notebook. -/
def startToken : String := "<START>"

/-- The unknown-word marker string `<UNK>` used in the notebook. -/
def unkToken : String := "<UNK>"

/-- The notebook cell
`word_to_index = {k: (v + INDEX_FROM) for k, v in word_index.items()}`
followed by the three assignments
`word_to_index["<PAD>"] = 0`, `word_to_index["<START>"] = 1`,
`word_to_index["<UNK>"] = 2`, applied to the library's `word_index`. -/
def word_to_index (word_index : List (String × Nat)) : List (String × Nat) :=
  dinsert
    (dinsert
      (dinsert
        (dictOfPairs (word_index.map (fun kv => (kv.1, kv.2 + INDEX_FROM))))
        padToken 0)
      startToken 1)
    unkToken 2

/-- The notebook cell `index_to_word = {v: k for k, v in word_to_index.items()}`. -/
def index_to_word (word_index : List (String × Nat)) : List (Nat × String) :=
  dictOfPairs ((word_to_index word_index).map (fun kv => (kv.2, kv.1)))

/-! ### Padding, modelled from the keras documentation -/

/-- Modelled from the spec: the keras function `sequence.pad_sequences`
applied to one sequence, with the notebook's call
`sequence.pad_sequences(., maxlen=80)` using the library defaults
`padding="pre"`, `truncating="pre"`, `value=0` — the implementation lives
in the external keras library, not in this repository.  A sequence longer
than `maxlen` keeps only its last `maxlen` tokens; a shorter one is
left-padded with zeros up to length `maxlen`. -/
def pad_one (maxlen : Nat) (s : List Nat) : List Nat :=
  let t := s.drop (s.length - maxlen)
  List.replicate (maxlen - t.length) 0 ++ t

/-- Modelled from the spec: `sequence.pad_sequences(xs, maxlen=maxlen)`
maps the per-sequence padding over the list of sequences. -/
def pad_sequences (xs : List (List Nat)) (maxlen : Nat) : List (List Nat) :=
  xs.map (pad_one maxlen)

theorem pad_one_length (maxlen : Nat) (s : List Nat) :
    (pad_one maxlen s).length = maxlen := by
  simp only [pad_one, List.length_append, List.length_replicate,
    List.length_drop]
  omega

/-! ### Structure of `word_to_index` -/

theorem keys_shift (wi : List (String × Nat)) :
    ((wi.map (fun kv => (kv.1, kv.2 + INDEX_FROM))).map Prod.fst) =
      wi.map Prod.fst := by
  induction wi with
  | nil => rfl
  | cons kv rest ih => simp [ih]

theorem vals_shift (wi : List (String × Nat)) :
    ((wi.map (fun kv => (kv.1, kv.2 + INDEX_FROM))).map Prod.snd) =
      (wi.map Prod.snd).map (fun v => v + INDEX_FROM) := by
  induction wi with
  | nil => rfl
  | cons kv rest ih => simp [ih]

theorem word_to_index_eq (wi : List (String × Nat))
    (hkeys : (wi.map Prod.fst).Nodup)
    (hp : padToken ∉ wi.map Prod.fst) (hs : startToken ∉ wi.map Prod.fst)
    (hu : unkToken ∉ wi.map Prod.fst) :
    word_to_index wi =
      wi.map (fun kv => (kv.1, kv.2 + INDEX_FROM)) ++
        [(padToken, 0), (startToken, 1), (unkToken, 2)] := by
  unfold word_to_index
  have hkL : ((wi.map (fun kv => (kv.1, kv.2 + INDEX_FROM))).map Prod.fst) =
      wi.map Prod.fst := keys_shift wi
  rw [dictOfPairs_eq_self (hkL ▸ hkeys)]
  rw [dinsert_of_not_mem 0 (by rw [hkL]; exact hp)]
  rw [dinsert_of_not_mem 1 (by
    simp only [List.map_append, List.mem_append, hkL]
    push_neg
    refine ⟨hs, by decide⟩)]
  rw [dinsert_of_not_mem 2 (by
    simp only [List.map_append, List.mem_append, hkL]
    push_neg
    refine ⟨⟨hu, by decide⟩, by decide⟩)]
  simp [List.append_assoc]

/-! ### Claim theorems about padding -/

/-- C1: every row of `X_train = sequence.pad_sequences(x_train, maxlen=80)`
(and likewise `X_test`) has length exactly 80, whatever the length of the
input review. -/
theorem pad_sequences_fixed_length (xs : List (List Nat)) (r : List Nat)
    (hr : r ∈ pad_sequences xs MAXLEN) : r.length = 80 := by
  rcases List.mem_map.mp hr with ⟨s, _, he⟩
  rw [← he]
  exact pad_one_length MAXLEN s

theorem pad_sequences_fixed_length_witness :
    (pad_one MAXLEN ([5, 9])).length = 80 :=
  pad_sequences_fixed_length [[5, 9]] (pad_one MAXLEN ([5, 9]))
    (by simp [pad_sequences])

/-- C4: with the keras defaults `truncating="pre"` and `padding="pre"`, a
review longer than 80 tokens keeps its LAST 80 tokens (prepending the
discarded head recovers the review), and a shorter review is prepended
with zeros — the head of a long review is dropped, not the tail. -/
theorem pad_sequences_truncates_head (s t : List Nat)
    (hs : 80 < s.length) (ht : t.length < 80) :
    s.take (s.length - 80) ++ pad_one MAXLEN s = s ∧
    pad_one MAXLEN t = List.replicate (80 - t.length) 0 ++ t := by
  constructor
  · have hpad : pad_one MAXLEN s = s.drop (s.length - 80) := by
      unfold pad_one
      simp only [MAXLEN, List.length_drop]
      have h80 : s.length - (s.length - 80) = 80 := by omega
      simp [h80]
    rw [hpad]
    exact List.take_append_drop _ s
  · unfold pad_one
    simp only [MAXLEN]
    have ht0 : t.length - 80 = 0 := by omega
    simp [ht0]

theorem pad_sequences_truncates_head_witness :
    (List.range 81).take ((List.range 81).length - 80) ++
        pad_one MAXLEN (List.range 81) = List.range 81 ∧
      pad_one MAXLEN ([1, 2, 3]) =
        List.replicate (80 - ([1, 2, 3] : List Nat).length) 0 ++ [1, 2, 3] :=
  pad_sequences_truncates_head (List.range 81) [1, 2, 3] (by simp) (by simp)

/-! ### Claim theorems about the word index dictionaries -/

/-- C2: the notebook shifts every library index `v` to `v + 3` in
`word_to_index`, assigns `<PAD> -> 0`, `<START> -> 1`, `<UNK> -> 2`,
and — the library indices being at least 1 — a shifted id is at least 4,
so it collides with none of the three reserved ids. -/
theorem word_to_index_reserved (wi : List (String × Nat)) (k : String)
    (v : Nat)
    (hkeys : (wi.map Prod.fst).Nodup)
    (h1 : ∀ p ∈ wi, 1 ≤ p.2)
    (hkv : (k, v) ∈ wi)
    (hkp : k ≠ padToken) (hks : k ≠ startToken) (hku : k ≠ unkToken) :
    dget (word_to_index wi) padToken = some 0 ∧
    dget (word_to_index wi) startToken = some 1 ∧
    dget (word_to_index wi) unkToken = some 2 ∧
    dget (word_to_index wi) k = some (v + INDEX_FROM) ∧
    3 < v + INDEX_FROM := by
  refine ⟨?_, ?_, ?_, ?_, ?_⟩
  · unfold word_to_index
    rw [dget_dinsert_of_ne _ 2 (by decide), dget_dinsert_of_ne _ 1 (by decide)]
    exact dget_dinsert_self _ _ _
  · unfold word_to_index
    rw [dget_dinsert_of_ne _ 2 (by decide)]
    exact dget_dinsert_self _ _ _
  · exact dget_dinsert_self _ _ _
  · unfold word_to_index
    rw [dget_dinsert_of_ne _ 2 (fun he => hku he.symm),
      dget_dinsert_of_ne _ 1 (fun he => hks he.symm),
      dget_dinsert_of_ne _ 0 (fun he => hkp he.symm)]
    rw [dictOfPairs_eq_self ((keys_shift wi) ▸ hkeys)]
    exact dget_eq_some_of_mem ((keys_shift wi) ▸ hkeys)
      (List.mem_map.mpr ⟨(k, v), hkv, rfl⟩)
  · have := h1 (k, v) hkv
    simp only [INDEX_FROM]
    omega

theorem word_to_index_reserved_witness :
    dget (word_to_index [("the", 1), ("movie", 2)]) padToken = some 0 ∧
    dget (word_to_index [("the", 1), ("movie", 2)]) startToken = some 1 ∧
    dget (word_to_index [("the", 1), ("movie", 2)]) unkToken = some 2 ∧
    dget (word_to_index [("the", 1), ("movie", 2)]) ("the") =
      some (1 + INDEX_FROM) ∧
    3 < 1 + INDEX_FROM :=
  word_to_index_reserved [("the", 1), ("movie", 2)] ("the") 1 (by decide)
    (by decide) (by decide) (by decide) (by decide) (by decide)

/-! ### Swapped dictionaries -/

theorem keys_swap {α β : Type} (d : List (α × β)) :
    ((d.map (fun kv => (kv.2, kv.1))).map Prod.fst) = d.map Prod.snd := by
  induction d with
  | nil => rfl
  | cons kv rest ih => simp [ih]

theorem vals_swap {α β : Type} (d : List (α × β)) :
    ((d.map (fun kv => (kv.2, kv.1))).map Prod.snd) = d.map Prod.fst := by
  induction d with
  | nil => rfl
  | cons kv rest ih => simp [ih]

theorem swap_swap {α β : Type} (d : List (α × β)) :
    (d.map (fun kv => (kv.2, kv.1))).map (fun kv => (kv.2, kv.1)) = d := by
  induction d with
  | nil => rfl
  | cons kv rest ih => simp [ih]

theorem dget_swap {α β : Type} [DecidableEq α] [DecidableEq β]
    {d : List (α × β)} (hvals : (d.map Prod.snd).Nodup)
    {k : α} {v : β} (h : dget d k = some v) :
    dget (d.map (fun kv => (kv.2, kv.1))) v = some k := by
  apply dget_eq_some_of_mem
  · rw [keys_swap]
    exact hvals
  · exact List.mem_map.mpr ⟨(k, v), mem_of_dget_eq_some h, rfl⟩

/-- Keys of `word_to_index wi`, when the three reserved marker strings are
not words of the library index: the library words followed by the three
markers. -/
theorem keys_word_to_index (wi : List (String × Nat))
    (hkeys : (wi.map Prod.fst).Nodup)
    (hp : padToken ∉ wi.map Prod.fst) (hs : startToken ∉ wi.map Prod.fst)
    (hu : unkToken ∉ wi.map Prod.fst) :
    (word_to_index wi).map Prod.fst =
      wi.map Prod.fst ++ [padToken, startToken, unkToken] := by
  rw [word_to_index_eq wi hkeys hp hs hu]
  simp only [List.map_append, keys_shift]
  rfl

/-- Values of `word_to_index wi` under the same assumptions: the shifted
library ids followed by the three reserved ids. -/
theorem vals_word_to_index (wi : List (String × Nat))
    (hkeys : (wi.map Prod.fst).Nodup)
    (hp : padToken ∉ wi.map Prod.fst) (hs : startToken ∉ wi.map Prod.fst)
    (hu : unkToken ∉ wi.map Prod.fst) :
    (word_to_index wi).map Prod.snd =
      (wi.map Prod.snd).map (fun v => v + INDEX_FROM) ++ [0, 1, 2] := by
  rw [word_to_index_eq wi hkeys hp hs hu]
  simp only [List.map_append, vals_shift]
  rfl

theorem nodup_keys_word_to_index (wi : List (String × Nat))
    (hkeys : (wi.map Prod.fst).Nodup)
    (hp : padToken ∉ wi.map Prod.fst) (hs : startToken ∉ wi.map Prod.fst)
    (hu : unkToken ∉ wi.map Prod.fst) :
    ((word_to_index wi).map Prod.fst).Nodup := by
  rw [keys_word_to_index wi hkeys hp hs hu]
  apply List.Nodup.append hkeys (by decide)
  intro a ha hb
  have : a = padToken ∨ a = startToken ∨ a = unkToken := by
    simpa using hb
  rcases this with h | h | h
  · exact hp (h ▸ ha)
  · exact hs (h ▸ ha)
  · exact hu (h ▸ ha)

theorem nodup_vals_word_to_index (wi : List (String × Nat))
    (hkeys : (wi.map Prod.fst).Nodup) (hvals : (wi.map Prod.snd).Nodup)
    (hp : padToken ∉ wi.map Prod.fst) (hs : startToken ∉ wi.map Prod.fst)
    (hu : unkToken ∉ wi.map Prod.fst) :
    ((word_to_index wi).map Prod.snd).Nodup := by
  rw [vals_word_to_index wi hkeys hp hs hu]
  apply List.Nodup.append
  · exact hvals.map (fun a b hab => Nat.add_right_cancel hab)
  · decide
  · intro a ha hb
    rcases List.mem_map.mp ha with ⟨x, _, hx⟩
    have : a = 0 ∨ a = 1 ∨ a = 2 := by simpa using hb
    simp only [INDEX_FROM] at hx
    omega

/-- Under the Nodup assumptions, the comprehension building `index_to_word`
never overrides an entry: it is exactly `word_to_index` with every pair
swapped. -/
theorem index_to_word_eq_swap (wi : List (String × Nat))
    (hkeys : (wi.map Prod.fst).Nodup) (hvals : (wi.map Prod.snd).Nodup)
    (hp : padToken ∉ wi.map Prod.fst) (hs : startToken ∉ wi.map Prod.fst)
    (hu : unkToken ∉ wi.map Prod.fst) :
    index_to_word wi = (word_to_index wi).map (fun kv => (kv.2, kv.1)) := by
  unfold index_to_word
  apply dictOfPairs_eq_self
  rw [keys_swap]
  exact nodup_vals_word_to_index wi hkeys hvals hp hs hu

/-! ### Claim theorems about decoding -/

/-- C5: decoding a review never fails.  A token id occurring in the loaded
data is 0, 1, 2, or `v + 3` for a library index `v`, and every such id is a
key of `index_to_word`, so `index_to_word[w]` raises no `KeyError`. -/
theorem index_to_word_total (wi : List (String × Nat)) (w : Nat)
    (hkeys : (wi.map Prod.fst).Nodup)
    (hp : padToken ∉ wi.map Prod.fst) (hs : startToken ∉ wi.map Prod.fst)
    (hu : unkToken ∉ wi.map Prod.fst)
    (hw : w = 0 ∨ w = 1 ∨ w = 2 ∨ ∃ p ∈ wi, w = p.2 + INDEX_FROM) :
    (dget (index_to_word wi) w).isSome := by
  rw [dget_isSome_iff_mem]
  unfold index_to_word
  rw [mem_keys_dictOfPairs, keys_swap]
  rw [vals_word_to_index wi hkeys hp hs hu]
  rw [List.mem_append]
  rcases hw with h | h | h | ⟨p, hpmem, he⟩
  · right; simp [h]
  · right; simp [h]
  · right; simp [h]
  · left
    exact List.mem_map.mpr ⟨p.2, List.mem_map_of_mem Prod.snd hpmem, he.symm⟩

theorem index_to_word_total_witness :
    (dget (index_to_word [("the", 1), ("movie", 2)]) 4).isSome :=
  index_to_word_total [("the", 1), ("movie", 2)] 4 (by decide) (by decide)
    (by decide) (by decide) (by decide)

/-- C6: `index_to_word` inverts `word_to_index` in both directions: when
the library index assigns distinct ids to distinct words, a lookup in one
dictionary is undone by a lookup in the other, the three reserved tokens
included. -/
theorem index_to_word_inverse (wi : List (String × Nat)) (w u : String)
    (v i : Nat)
    (hkeys : (wi.map Prod.fst).Nodup) (hvals : (wi.map Prod.snd).Nodup)
    (hp : padToken ∉ wi.map Prod.fst) (hs : startToken ∉ wi.map Prod.fst)
    (hu : unkToken ∉ wi.map Prod.fst)
    (h1 : dget (word_to_index wi) w = some v)
    (h2 : dget (index_to_word wi) i = some u) :
    dget (index_to_word wi) v = some w ∧
    dget (word_to_index wi) u = some i := by
  have hswap := index_to_word_eq_swap wi hkeys hvals hp hs hu
  constructor
  · rw [hswap]
    exact dget_swap (nodup_vals_word_to_index wi hkeys hvals hp hs hu) h1
  · rw [hswap] at h2
    have h3 := dget_swap (d := (word_to_index wi).map (fun kv => (kv.2, kv.1)))
      (by rw [vals_swap]; exact nodup_keys_word_to_index wi hkeys hp hs hu) h2
    rw [swap_swap] at h3
    exact h3

theorem index_to_word_inverse_witness :
    dget (index_to_word [("the", 1), ("movie", 2)]) 4 = some ("the") ∧
    dget (word_to_index [("the", 1), ("movie", 2)]) padToken = some 0 :=
  index_to_word_inverse [("the", 1), ("movie", 2)] ("the") padToken 4 0
    (by decide) (by decide) (by decide) (by decide) (by decide) (by decide)
    (by decide)

/-! ### The kernel state and the cells as state transformers -/

/-- The notebook's kernel state: the global variables involved in the
data-handling cells. -/
structure KernelState where
  x_train : List (List Nat)
  y_train : List Nat
  x_test : List (List Nat)
  y_test : List Nat
  word_index : List (String × Nat)
  word_to_index : List (String × Nat)
  index_to_word : List (Nat × String)
  X_train : List (List Nat)
  X_test : List (List Nat)

/-- The preprocessing cell: it assigns
`X_train = sequence.pad_sequences(x_train, maxlen=MAXLEN)` and
`X_test = sequence.pad_sequences(x_test, maxlen=MAXLEN)` and nothing
else. -/
def runPreprocessingCell (st : KernelState) : KernelState :=
  { st with
    X_train := pad_sequences st.x_train MAXLEN
    X_test := pad_sequences st.x_test MAXLEN }

/-- The word-index cell: it assigns the dictionaries `word_to_index` and
`index_to_word` built from the library mapping `word_index`, and nothing
else. -/
def runWordIndexCell (st : KernelState) : KernelState :=
  { st with
    word_to_index := ImdbNotebook.word_to_index st.word_index
    index_to_word := ImdbNotebook.index_to_word st.word_index }

/-- C7: the transformations are stateless and the inputs immutable — the
preprocessing cell leaves `x_train`, `x_test`, `y_train`, `y_test`
unchanged while producing the padded arrays, and the word-index cell
leaves the library mapping `word_index` unchanged. -/
theorem cells_preserve_inputs (st : KernelState) :
    (runPreprocessingCell st).x_train = st.x_train ∧
    (runPreprocessingCell st).x_test = st.x_test ∧
    (runPreprocessingCell st).y_train = st.y_train ∧
    (runPreprocessingCell st).y_test = st.y_test ∧
    (runPreprocessingCell st).word_index = st.word_index ∧
    (runWordIndexCell st).word_index = st.word_index ∧
    (runWordIndexCell st).x_train = st.x_train ∧
    (runPreprocessingCell st).X_train = pad_sequences st.x_train MAXLEN ∧
    (runPreprocessingCell st).X_test = pad_sequences st.x_test MAXLEN :=
  ⟨rfl, rfl, rfl, rfl, rfl, rfl, rfl, rfl, rfl⟩

/-! ### The notebook source as a statement list

Each code cell of `2_recurrent_neural_networks.ipynb` is transcribed
statement by statement.  The statement type also has constructors for
conditionals, loops and try/except handlers, so that the claims that the
source contains none of these are about a type that could express them. -/

inductive NbStmt where
  | magicLine (text : String)
  | moduleImport (module : String)
  | namesImport (module : String) (names : List String)
  | assignNum (lhs : String) (value : Nat)
  | assignCall (lhs : String) (fn : String) (args : List String)
  | assignComp (lhs : String) (comp : String)
  | assignItem (dict : String) (key : String) (value : Nat)
  | exprCall (fn : String) (args : List String)
  | exprOther (text : String)
  | ifBranch (cond : String)
  | forLoop (var : String) (iter : String)
  | whileLoop (cond : String)
  | tryHandler (body : String) (handler : String)
deriving DecidableEq

/-- Cell 1: the autoreload magics. -/
def nbCell1 : List NbStmt :=
  [.magicLine ("%load_ext autoreload"),
   .magicLine ("%autoreload 2")]

/-- Cell 2: the top imports and the matplotlib magic. -/
def nbCell2 : List NbStmt :=
  [.moduleImport ("keras"),
   .moduleImport ("numpy"),
   .moduleImport ("matplotlib.pyplot"),
   .moduleImport ("os"),
   .moduleImport ("pandas"),
   .moduleImport ("seaborn"),
   .moduleImport ("utils"),
   .magicLine ("%matplotlib inline")]

/-- Cell 3: loading the dataset. -/
def nbCell3 : List NbStmt :=
  [.namesImport ("keras.datasets") [("imdb")],
   .assignNum ("NUM_WORDS") 20000,
   .assignCall ("(x_train, y_train), (x_test, y_test)") ("imdb.load_data")
     [("num_words=NUM_WORDS")],
   .exprCall ("print") [("Loading data...")],
   .exprCall ("print") [("len(x_train)"), ("train sequences")],
   .exprCall ("print") [("len(x_test)"), ("test sequences")]]

/-- Cell 4: a peek at the raw data. -/
def nbCell4 : List NbStmt :=
  [.exprOther ("x_train[:3]")]

/-- Cell 5: building `word_to_index` and `index_to_word`.  The two
comprehension texts are the dict comprehensions of the source cell. -/
def nbCell5 : List NbStmt :=
  [.assignNum ("INDEX_FROM") 3,
   .assignCall ("word_index") ("imdb.get_word_index") [],
   .assignComp ("word_to_index")
     ("\x7bk: (v + INDEX_FROM) for k, v in word_index.items()\x7d"),
   .assignItem ("word_to_index") ("<PAD>") 0,
   .assignItem ("word_to_index") ("<START>") 1,
   .assignItem ("word_to_index") ("<UNK>") 2,
   .assignComp ("index_to_word")
     ("\x7bv: k for k, v in word_to_index.items()\x7d")]

/-- Cell 6: decoding one review.  The join is called on a one-space string
literal; its argument is a list comprehension. -/
def nbCell6 : List NbStmt :=
  [.assignNum ("I_SHOW") 4,
   .exprCall ("space-literal.join")
     [("[index_to_word[w] for w in x_train[I_SHOW]]")]]

/-- Cell 7: the preprocessing cell with the two padding calls. -/
def nbCell7 : List NbStmt :=
  [.namesImport ("keras.preprocessing") [("sequence")],
   .assignNum ("MAXLEN") 80,
   .assignCall ("X_train") ("sequence.pad_sequences")
     [("x_train"), ("maxlen=MAXLEN")],
   .assignCall ("X_test") ("sequence.pad_sequences")
     [("x_test"), ("maxlen=MAXLEN")],
   .exprCall ("print") [("Size of X_train"), ("X_train.shape")],
   .exprCall ("print") [("Size of X_test"), ("X_test.shape")]]

/-- Cell 8: the sequence-length plot. -/
def nbCell8 : List NbStmt :=
  [.assignComp ("lengths") ("[len(s) for s in x_train]"),
   .assignCall ("fig, ax") ("plt.subplots") [("figsize=(10, 6)")],
   .exprCall ("sns.kdeplot") [("lengths"), ("cumulative=True"), ("ax=ax")],
   .exprCall ("ax.plot") [("(80, 80)"), ("ax.get_ylim()"), ("--k")],
   .exprCall ("ax.set_xlabel") [("Sequence lengths [# words]")],
   .exprCall ("ax.set_ylabel") [("Cumulative fraction")],
   .exprCall ("ax.set_title") [("Occurence of sequence lengths in reviews")],
   .exprCall ("ax.legend") [("[x_train, Max length]")]]

/-- Cell 9: showing the padded array. -/
def nbCell9 : List NbStmt :=
  [.exprCall ("print") [("Size of X_train:"), ("X_train.shape")],
   .exprOther ("X_train[3, :]")]

/-- Cells 10 to 13: the four illustration calls into `utils`. -/
def nbCell10 : List NbStmt := [.exprCall ("utils.one_hot_encoding") []]

def nbCell11 : List NbStmt := [.exprCall ("utils.one_hot_document") []]

def nbCell12 : List NbStmt := [.exprCall ("utils.embedding_encoding") []]

def nbCell13 : List NbStmt := [.exprCall ("utils.embedding_document") []]

/-- Cell 14: the model cell under the LSTM exercise — it contains three
importing lines and nothing else. -/
def nbCell14 : List NbStmt :=
  [.namesImport ("keras.callbacks") [("EarlyStopping"), ("ModelCheckpoint")],
   .namesImport ("keras.models") [("Sequential")],
   .namesImport ("keras.layers") [("Dense"), ("Embedding"), ("LSTM")]]

/-- Cells 15 to 18: the code cells under the four follow-up exercises
(baseline, minimum viable network, visualizing embeddings, transfer
learning) — all empty in the source. -/
def nbCell15 : List NbStmt := []

def nbCell16 : List NbStmt := []

def nbCell17 : List NbStmt := []

def nbCell18 : List NbStmt := []

/-- All code cells of the notebook, in order. -/
def notebookCells : List (List NbStmt) :=
  [nbCell1, nbCell2, nbCell3, nbCell4, nbCell5, nbCell6, nbCell7, nbCell8,
   nbCell9, nbCell10, nbCell11, nbCell12, nbCell13, nbCell14, nbCell15,
   nbCell16, nbCell17, nbCell18]

/-- Every statement of the notebook, in execution order. -/
def allNotebookStmts : List NbStmt :=
  notebookCells.foldr (fun c r => c ++ r) []

/-! ### Discriminators over statements -/

/-- The function a statement calls, when it is a call statement or an
assignment whose right-hand side is a call. -/
def NbStmt.callName : NbStmt → Option String
  | .assignCall _ f _ => some f
  | .exprCall f _ => some f
  | _ => none

/-- String suffix test over the character lists. -/
def strEndsWith (s t : String) : Bool :=
  t.toList.isSuffixOf s.toList

/-- A call of the keras `fit` method (any receiver). -/
def isFitCall (s : NbStmt) : Bool :=
  match s.callName with
  | some f => f == ("fit") || strEndsWith f (".fit")
  | none => false

/-- A call of the keras `Sequential` model constructor. -/
def isSequentialCall (s : NbStmt) : Bool :=
  match s.callName with
  | some f => f == ("Sequential") || strEndsWith f (".Sequential")
  | none => false

def NbStmt.isImportStmt : NbStmt → Bool
  | .moduleImport _ => true
  | .namesImport _ _ => true
  | _ => false

def NbStmt.isIfBranch : NbStmt → Bool
  | .ifBranch _ => true
  | _ => false

def NbStmt.isForLoop : NbStmt → Bool
  | .forLoop _ _ => true
  | _ => false

def NbStmt.isWhileLoop : NbStmt → Bool
  | .whileLoop _ => true
  | _ => false

def NbStmt.isTryHandler : NbStmt → Bool
  | .tryHandler _ _ => true
  | _ => false

/-! ### Execution semantics for error propagation -/

/-- Sequential cell execution.  `f` gives the outcome each statement
receives from the external framework; a `tryHandler` statement is the one
construct that would swallow an error, every other statement propagates
the first error unchanged and stops the run. -/
def runStmts {E : Type} (f : NbStmt → Except E Unit) :
    List NbStmt → Except E Unit
  | [] => Except.ok ()
  | s :: rest =>
    if s.isTryHandler then runStmts f rest
    else
      match f s with
      | Except.ok _ => runStmts f rest
      | Except.error e => Except.error e

theorem runStmts_no_handler {E : Type} (f : NbStmt → Except E Unit)
    (l : List NbStmt) (h : ∀ s ∈ l, s.isTryHandler = false) :
    runStmts f l = Except.ok () ∨
      ∃ s ∈ l, ∃ e, f s = Except.error e ∧ runStmts f l = Except.error e := by
  induction l with
  | nil => exact Or.inl rfl
  | cons s rest ih =>
    have hs : s.isTryHandler = false := h s (List.mem_cons_self _ _)
    have hrun : runStmts f (s :: rest) =
        match f s with
        | Except.ok _ => runStmts f rest
        | Except.error e => Except.error e := by
      simp [runStmts, hs]
    cases hfs : f s with
    | ok u =>
      cases u
      rcases ih (fun t ht => h t (List.mem_cons_of_mem _ ht)) with h' | h'
      · left
        rw [hrun, hfs]
        exact h'
      · right
        rcases h' with ⟨t, ht, e, hte, hre⟩
        exact ⟨t, List.mem_cons_of_mem _ ht, e, hte, by rw [hrun, hfs]; exact hre⟩
    | error e =>
      right
      exact ⟨s, List.mem_cons_self _ _, e, hfs, by rw [hrun, hfs]⟩

/-! ### Claim theorems about the notebook source -/

/-- C3 counterexample: the claim asserts that the source contains a
sequential-model assembly call and a fit invocation; in fact no statement
of the notebook calls `Sequential` or any `.fit` method — the model cell
holds only imports and the exercise is left to the learner. -/
theorem notebook_no_assembly_or_fit :
    (allNotebookStmts.any (fun s => isFitCall s || isSequentialCall s)) =
      false := by
  decide

/-- C3 amended: the visible code consists of the data loading call, the
padding calls, the decoding/plotting statements, and a model cell holding
exactly the three import lines (callbacks, `Sequential`, the layer
classes); no sequential-model assembly and no fit invocation appears in
the source. -/
theorem notebook_visible_code :
    (allNotebookStmts.any
      (fun s => s.callName == some ("imdb.load_data"))) = true ∧
    (allNotebookStmts.any
      (fun s => s.callName == some ("sequence.pad_sequences"))) = true ∧
    (notebookCells.getD 13 []).all NbStmt.isImportStmt = true ∧
    (notebookCells.getD 13 []).length = 3 ∧
    (allNotebookStmts.any (fun s => isFitCall s || isSequentialCall s)) =
      false := by
  refine ⟨by decide, by decide, by decide, by decide, by decide⟩

/-- C8: the four code cells under the four follow-up exercises (baseline
classifier, smaller network, embedding visualization, transfer learning)
are all empty: none of them is implemented in the source. -/
theorem followup_exercise_cells_empty :
    notebookCells.drop 14 = [[], [], [], []] := by
  decide

/-- C9: no statement of the notebook is a conditional branch, a loop, or a
try/except handler — the source is straight-line code whose only iteration
is the element-wise comprehensions transcribed inside its statements. -/
theorem notebook_straight_line :
    (allNotebookStmts.all
      (fun s => !(s.isIfBranch || s.isForLoop || s.isWhileLoop ||
        s.isTryHandler))) = true := by
  decide

/-- C10: the notebook performs no error handling: it contains no
try/except statement, so whatever error the external framework raises at
any statement, the run of the notebook propagates exactly that error,
unhandled and unchanged. -/
theorem notebook_propagates_errors {E : Type} (f : NbStmt → Except E Unit) :
    runStmts f allNotebookStmts = Except.ok () ∨
      ∃ s ∈ allNotebookStmts, ∃ e, f s = Except.error e ∧
        runStmts f allNotebookStmts = Except.error e :=
  runStmts_no_handler f allNotebookStmts (by decide)

end ImdbNotebook
